import Mathlib

/- Verification of the invoice-extraction pipeline (src/app/functions.py)
   against its natural-language specification.

   The Python module is shallowly embedded below:
   * text is modelled as `String` / `List Char` (Python `str` is a sequence of
     code points);
   * bytes are modelled as `List Nat` with values below 256;
   * fallible calls are modelled with `Except`;
   * the external capabilities (PDF parser, embedding model, language model,
     retriever) are taken as explicit function parameters;
   * `uuid.uuid5` is embedded in full (SHA-1 over the DNS namespace bytes
     followed by the UTF-8 bytes of the name, RFC 4122 version/variant bits,
     canonical lowercase hex rendering). -/

set_option maxRecDepth 40000

namespace InvoiceApp

/-! ## `uuid.uuid5(uuid.NAMESPACE_DNS, ...)` — the chunk identity of
`create_vectorstore` (functions.py line 118) -/

/-- One 32-bit word, kept as a `Nat` reduced modulo `2^32`. -/
def w32 (x : Nat) : Nat := x % 4294967296

/-- Left rotation of a 32-bit word by `n` bits. -/
def rotl32 (n x : Nat) : Nat :=
  w32 ((x <<< n) ||| (x >>> (32 - n)))

/-- Split a byte list into blocks of 64 bytes.  The `Nat` argument is fuel
bounding the recursion depth; it is always called with the list length, which
suffices since every step consumes at least one element. -/
def toBlocksGo : Nat → List Nat → List (List Nat)
  | _, [] => []
  | 0, l => [l]
  | fuel + 1, c :: rest => ((c :: rest).take 64) :: toBlocksGo fuel ((c :: rest).drop 64)

/-- Split a byte list into blocks of 64 bytes. -/
def toBlocks (l : List Nat) : List (List Nat) := toBlocksGo l.length l

/-- SHA-1 padding: append 0x80, zero bytes, then the 64-bit big-endian bit length. -/
def sha1Pad (msg : List Nat) : List Nat :=
  let l := msg.length
  let zeros := (119 - l % 64) % 64
  let bitLen := l * 8
  msg ++ [0x80] ++ List.replicate zeros 0 ++
    [w32 (bitLen >>> 56) % 256, (bitLen >>> 48) % 256, (bitLen >>> 40) % 256,
     (bitLen >>> 32) % 256, (bitLen >>> 24) % 256, (bitLen >>> 16) % 256,
     (bitLen >>> 8) % 256, bitLen % 256]

/-- Big-endian 32-bit words from a 64-byte block. -/
def blockWords (b : List Nat) : List Nat :=
  (List.range 16).map fun i =>
    (b.getD (4 * i) 0) <<< 24 ||| (b.getD (4 * i + 1) 0) <<< 16 |||
    (b.getD (4 * i + 2) 0) <<< 8 ||| b.getD (4 * i + 3) 0

/-- Extend 16 words to 80 words. -/
def extendWords (w : List Nat) : List Nat :=
  (List.range 64).foldl
    (fun w _ =>
      let n := w.length
      w ++ [rotl32 1 ((w.getD (n - 3) 0) ^^^ (w.getD (n - 8) 0) ^^^
                      (w.getD (n - 14) 0) ^^^ (w.getD (n - 16) 0))])
    w

/-- One SHA-1 round. -/
def sha1Round (i wi : Nat) (st : Nat × Nat × Nat × Nat × Nat) : Nat × Nat × Nat × Nat × Nat :=
  let (a, b, c, d, e) := st
  let f :=
    if i < 20 then (b &&& c) ||| ((b ^^^ 0xFFFFFFFF) &&& d)
    else if i < 40 then b ^^^ c ^^^ d
    else if i < 60 then (b &&& c) ||| (b &&& d) ||| (c &&& d)
    else b ^^^ c ^^^ d
  let k :=
    if i < 20 then 0x5A827999
    else if i < 40 then 0x6ED9EBA1
    else if i < 60 then 0x8F1BBCDC
    else 0xCA62C1D6
  let temp := w32 (rotl32 5 a + f + e + k + wi)
  (temp, a, rotl32 30 b, c, d)

/-- Process one 64-byte block. -/
def sha1Block (h : Nat × Nat × Nat × Nat × Nat) (block : List Nat) :
    Nat × Nat × Nat × Nat × Nat :=
  let ws := extendWords (blockWords block)
  let (h0, h1, h2, h3, h4) := h
  let (a, b, c, d, e) :=
    (List.range 80).foldl (fun st i => sha1Round i (ws.getD i 0) st) (h0, h1, h2, h3, h4)
  (w32 (h0 + a), w32 (h1 + b), w32 (h2 + c), w32 (h3 + d), w32 (h4 + e))

/-- Big-endian bytes of a 32-bit word. -/
def wordBytes (x : Nat) : List Nat :=
  [(x >>> 24) % 256, (x >>> 16) % 256, (x >>> 8) % 256, x % 256]

/-- SHA-1 digest (20 bytes) of a byte list.  Checked against the standard test
vector sha1("abc") = a9993e364706816aba3e25717850c26c9cd0d89d. -/
def sha1 (msg : List Nat) : List Nat :=
  let start := (0x67452301, 0xEFCDAB89, 0x98BADCFE, 0x10325476, 0xC3D2E1F0)
  let (h0, h1, h2, h3, h4) := (toBlocks (sha1Pad msg)).foldl sha1Block start
  wordBytes h0 ++ wordBytes h1 ++ wordBytes h2 ++ wordBytes h3 ++ wordBytes h4

/-- UTF-8 encoding of one character. -/
def utf8Char (c : Char) : List Nat :=
  let n := c.toNat
  if n < 0x80 then [n]
  else if n < 0x800 then [0xC0 ||| (n >>> 6), 0x80 ||| (n &&& 0x3F)]
  else if n < 0x10000 then
    [0xE0 ||| (n >>> 12), 0x80 ||| ((n >>> 6) &&& 0x3F), 0x80 ||| (n &&& 0x3F)]
  else
    [0xF0 ||| (n >>> 18), 0x80 ||| ((n >>> 12) &&& 0x3F),
     0x80 ||| ((n >>> 6) &&& 0x3F), 0x80 ||| (n &&& 0x3F)]

/-- UTF-8 encoding of a string as a byte list (Python `str.encode("utf-8")`). -/
def utf8 (s : String) : List Nat := (s.data.map utf8Char).flatten

/-- The 16 bytes of `uuid.NAMESPACE_DNS` (6ba7b810-9dad-11d1-80b4-00c04fd430c8). -/
def namespaceDNS : List Nat :=
  [0x6b, 0xa7, 0xb8, 0x10, 0x9d, 0xad, 0x11, 0xd1,
   0x80, 0xb4, 0x00, 0xc0, 0x4f, 0xd4, 0x30, 0xc8]

/-- Hex digit character (lowercase). -/
def hexDigit (n : Nat) : Char :=
  if n < 10 then Char.ofNat (48 + n) else Char.ofNat (87 + n)

/-- Two lowercase hex digits for one byte. -/
def byteHex (b : Nat) : List Char := [hexDigit (b / 16), hexDigit (b % 16)]

/-- RFC 4122 version-5 UUID bytes: SHA-1 of namespace ++ name, truncated to 16
bytes, with the version nibble set to 5 and the variant bits set to 10. -/
def uuid5Bytes (name : String) : List Nat :=
  let d := (sha1 (namespaceDNS ++ utf8 name)).take 16
  d.take 6 ++ [(d.getD 6 0 &&& 0x0F) ||| 0x50] ++ [d.getD 7 0] ++
    [(d.getD 8 0 &&& 0x3F) ||| 0x80] ++ d.drop 9

/-- `str(uuid.uuid5(uuid.NAMESPACE_DNS, name))`: the canonical 8-4-4-4-12
lowercase hex rendering.  Checked against the documented Python value
`uuid5(NAMESPACE_DNS, "python.org") = "886313e1-3b8a-5372-9b90-0c9aee199e5d"`.
This is exactly the id computed for each chunk at functions.py line 118. -/
def uuid5DNS (name : String) : String :=
  let bs := uuid5Bytes name
  let hx := (bs.map byteHex).flatten
  String.mk (hx.take 8 ++ ['-'] ++ (hx.drop 8).take 4 ++ ['-'] ++ (hx.drop 12).take 4
    ++ ['-'] ++ (hx.drop 16).take 4 ++ ['-'] ++ hx.drop 20)

/-! ## `clean_filename` (functions.py lines 22-36)

`re.sub(r'\s\(\d+\)', '', filename)`: delete every non-overlapping,
leftmost-first match of one whitespace character, `(`, one or more digits, `)`.
-/

/-- Python `\s` on the characters that can occur here (ASCII whitespace;
`re` also matches other Unicode spaces, which never appear in the inputs the
spec and claims discuss). -/
def isPySpace (c : Char) : Bool :=
  c = ' ' ∨ c = '\t' ∨ c = '\n' ∨ c = '\r' ∨ c = '\x0b' ∨ c = '\x0c'

/-- Match `\d+\)` at the head of `l`: one or more digits then `)`; return the
remainder after the match.  Greedy matching of `\d+` is equivalent to taking
the maximal digit run because `)` is not a digit. -/
def digitsCloseParen (l : List Char) : Option (List Char) :=
  let ds := l.takeWhile Char.isDigit
  let rest := l.dropWhile Char.isDigit
  if ds = [] then none
  else
    match rest with
    | ')' :: r => some r
    | _ => none

/-- Match the whole pattern `\s\(\d+\)` at the head of `l`; return the
remainder after the match. -/
def matchPat : List Char → Option (List Char)
  | a :: '(' :: rest => if isPySpace a then digitsCloseParen rest else none
  | _ => none

/-- Scan the string left to right, deleting each leftmost match of the pattern
(the semantics of `re.sub` with an empty replacement).  The `Nat` argument is
fuel, always called with the list length; each step consumes at least one
character. -/
def cleanGo : Nat → List Char → List Char
  | 0, l => l
  | _ + 1, [] => []
  | fuel + 1, c :: cs =>
    match matchPat (c :: cs) with
    | some r => cleanGo fuel r
    | none => c :: cleanGo fuel cs

/-- `clean_filename(filename)`: remove every `"\s(number)"` occurrence. -/
def clean_filename (filename : String) : String :=
  String.mk (cleanGo filename.data.length filename.data)

/-! ## `split_document` (functions.py lines 70-84)

`RecursiveCharacterTextSplitter(chunk_size=chunk_size, chunk_overlap=chunk_overlap,
length_function=len, separators=["\n\n", "\n", " "])`, then `split_documents`.

The splitter class (langchain_text_splitters) runs with its defaults
`keep_separator=True`, `is_separator_regex=False`, `strip_whitespace=True`.
The embedding below reproduces, over `List Char`:
* `re.split(re.escape(sep), text)` for a literal separator (`splitOnL`);
* `_split_text_with_regex` with `keep_separator=True`, which reattaches each
  separator to the start of the following piece and drops empty pieces
  (`splitKeep`);
* `re.search(re.escape(sep), text)` for a literal separator (`occursIn`);
* `TextSplitter._join_docs` and `TextSplitter._merge_splits` (`joinDocs`,
  `popWhile`, `mergeAux`, `mergeSplits`); because `keep_separator=True`,
  `_split_text` always calls `_merge_splits` with separator `""`;
* the good/bad split loop of `RecursiveCharacterTextSplitter._split_text`
  (`splitLoop`), where a piece of length < chunk_size is accumulated for
  merging and a longer piece is either recursed into (when lower-priority
  separators remain) or appended whole (when none remain);
* `_split_text` itself, unrolled at the fixed separator list
  `["\n\n", "\n", " "]` (`splitTextSpace`, `splitTextNl`, `splitTextFull`):
  `_split_text` picks the first separator of the list that occurs in the text
  (defaulting to the last one, `" "`, when none occurs) and recurses on the
  remaining suffix of the list, so with this three-element list the only
  reachable calls are the three functions below.  Note the list does NOT
  contain `""`, so the hard character-level cut of the splitter's default
  separator list is unreachable here. -/

/-- `re.split(re.escape(sep), text)` for a literal nonempty separator:
split at each leftmost non-overlapping occurrence.  The `Nat` argument is
fuel, always called with the text length; each step consumes at least one
character. -/
def splitOnFuel (sep : List Char) : Nat → List Char → List (List Char)
  | _, [] => [[]]
  | 0, l => [l]
  | fuel + 1, c :: cs =>
    if sep ≠ [] ∧ sep.isPrefixOf (c :: cs) then
      [] :: splitOnFuel sep fuel ((c :: cs).drop sep.length)
    else
      match splitOnFuel sep fuel cs with
      | [] => [[c]]
      | p :: ps => (c :: p) :: ps

/-- `re.split` on a literal separator. -/
def splitOnL (sep text : List Char) : List (List Char) :=
  splitOnFuel sep text.length text

/-- `_split_text_with_regex(text, re.escape(sep), keep_separator=True)`:
`re.split` with the separator captured gives `[p0, sep, p1, sep, p2, ...]`;
the pairs are recombined as `[p0, sep+p1, sep+p2, ...]` and empty strings are
dropped. -/
def splitKeep (sep text : List Char) : List (List Char) :=
  match splitOnL sep text with
  | [] => []
  | p :: ps => ((p :: ps.map (fun q => sep ++ q)).filter (fun s => !s.isEmpty))

/-- `re.search(re.escape(sep), text)` for a literal separator: does `sep`
occur in `text`? -/
def occursIn (sep : List Char) : List Char → Bool
  | [] => sep.isPrefixOf []
  | c :: cs => sep.isPrefixOf (c :: cs) || occursIn sep cs

/-- Python `str.strip()` on the characters in play. -/
def stripWs (l : List Char) : List Char :=
  ((l.dropWhile isPySpace).reverse.dropWhile isPySpace).reverse

/-- Python `separator.join(docs)`: the pieces interleaved with the
separator. -/
def joinSep (sep : List Char) : List (List Char) → List Char
  | [] => []
  | [d] => d
  | d :: d2 :: ds => d ++ sep ++ joinSep sep (d2 :: ds)

/-- The summed length of a list of pieces. -/
def sumLens (l : List (List Char)) : Nat := (l.map List.length).sum

/-- `TextSplitter._join_docs(docs, separator)` with `strip_whitespace=True`:
join, strip, and return `None` for the empty string. -/
def joinDocs (sep : List Char) (docs : List (List Char)) : Option (List Char) :=
  let text := stripWs (joinSep sep docs)
  if text = [] then none else some text

/-- The popping `while` loop of `_merge_splits`: keep dropping the head of
`current_doc` while the running total exceeds the overlap, or appending the
next split (of length `dLen`) would exceed the chunk size while something is
left to drop.  (Python would fault on an empty `current_doc`; that state is
unreachable because `total` is the summed length of `current_doc`.) -/
def popWhile (sepLen S O dLen : Nat) : List (List Char) → Nat → List (List Char) × Nat
  | [], total => ([], total)
  | c0 :: cur, total =>
    if total > O ∨ (total + dLen + sepLen > S ∧ total > 0) then
      popWhile sepLen S O dLen cur (total - (c0.length + if cur = [] then 0 else sepLen))
    else (c0 :: cur, total)

/-- The body of `TextSplitter._merge_splits`, processing the split list with
the running `current_doc` window and its summed length `total`.  With an empty
`current_doc` the flush block is skipped whether or not the size check fires
(it is guarded by `len(current_doc) > 0`) and the appended `d` becomes the
sole element with `total + len(d)` (no separator is counted for a singleton),
so that case is written as one unconditional equation. -/
def mergeAux (sep : List Char) (S O : Nat) :
    List (List Char) → List (List Char) → Nat → List (List Char)
  | [], cur, _total => (joinDocs sep cur).toList
  | d :: ds, [], total => mergeAux sep S O ds [d] (total + d.length)
  | d :: ds, c0 :: cs, total =>
    if total + d.length + sep.length > S then
      (joinDocs sep (c0 :: cs)).toList ++
        (let p := popWhile sep.length S O d.length (c0 :: cs) total
         let cur2 := p.1 ++ [d]
         mergeAux sep S O ds cur2
           (p.2 + d.length + (if cur2.length > 1 then sep.length else 0)))
    else
      let cur2 := (c0 :: cs) ++ [d]
      mergeAux sep S O ds cur2 (total + d.length + (if cur2.length > 1 then sep.length else 0))

/-- `TextSplitter._merge_splits(splits, separator)`. -/
def mergeSplits (sep : List Char) (S O : Nat) (splits : List (List Char)) : List (List Char) :=
  mergeAux sep S O splits [] 0

/-- The good/bad loop of `_split_text`: `good` accumulates consecutive pieces
shorter than the chunk size; hitting a piece of length ≥ chunk size flushes
the accumulated run through `_merge_splits` (with separator `""`, since
`keep_separator=True`) and hands the long piece to `handleBig` (recursion into
the remaining separators, or `[s]` when none remain). -/
def splitLoop (S O : Nat) (handleBig : List Char → List (List Char)) :
    List (List Char) → List (List Char) → List (List Char)
  | good, [] => if good = [] then [] else mergeSplits [] S O good
  | good, s :: rest =>
    if s.length < S then splitLoop S O handleBig (good ++ [s]) rest
    else
      (if good = [] then [] else mergeSplits [] S O good) ++ handleBig s ++
        splitLoop S O handleBig [] rest

/-- `_split_text(text, [" "])`.  Whether or not `" "` occurs, the chosen
separator is `" "` and `new_separators` is empty, so a long piece is appended
whole. -/
def splitTextSpace (S O : Nat) (text : List Char) : List (List Char) :=
  splitLoop S O (fun s => [s]) [] (splitKeep [' '] text)

/-- `_split_text(text, ["\n", " "])`.  If `"\n"` occurs it is chosen with
`new_separators = [" "]`; otherwise the call behaves exactly like
`_split_text(text, [" "])`. -/
def splitTextNl (S O : Nat) (text : List Char) : List (List Char) :=
  if occursIn ['\n'] text then
    splitLoop S O (splitTextSpace S O) [] (splitKeep ['\n'] text)
  else splitTextSpace S O text

/-- `_split_text(text, ["\n\n", "\n", " "])` = `split_text(text)`.  If `"\n\n"`
occurs it is chosen with `new_separators = ["\n", " "]`; otherwise the call
behaves exactly like `_split_text(text, ["\n", " "])`. -/
def splitTextFull (S O : Nat) (text : List Char) : List (List Char) :=
  if occursIn ['\n', '\n'] text then
    splitLoop S O (splitTextNl S O) [] (splitKeep ['\n', '\n'] text)
  else splitTextNl S O text

/-- A langchain `Document`: the claims only depend on `page_content`
(metadata is carried through unchanged and never read by the code under
verification). -/
structure Document where
  page_content : String
  deriving DecidableEq, Repr

/-- `split_text` of the configured splitter, over `String`. -/
def split_text (chunk_size chunk_overlap : Nat) (text : String) : List String :=
  (splitTextFull chunk_size chunk_overlap text.data).map String.mk

/-- `split_document(documents, chunk_size, chunk_overlap)`:
`split_documents` produces, for each input document in order, one `Document`
per chunk of its `page_content`, in order. -/
def split_document (documents : List Document) (chunk_size chunk_overlap : Nat) :
    List Document :=
  (documents.map fun d =>
    (split_text chunk_size chunk_overlap d.page_content).map Document.mk).flatten

/-! ## Errors and external capabilities -/

/-- Python exceptions relevant to the pipeline. -/
inductive PyErr
  | parseFailure
  | embedFailure
  | modelFailure
  | retrievalFailure
  | unboundLocal
  | valueError (msg : String)
  deriving DecidableEq, Repr

/-! ## `create_vectorstore` (functions.py lines 104-141) -/

/-- Line 118: `ids = [str(uuid.uuid5(uuid.NAMESPACE_DNS, doc.page_content)) for doc in chunks]`. -/
def chunk_ids (chunks : List Document) : List String :=
  chunks.map fun doc => uuid5DNS doc.page_content

/-- The dedup loop of lines 121-128 over `zip(chunks, ids)`.  The Python
`unique_ids` set is represented by the list of its elements in insertion
order (membership agrees with the set; the unordered enumeration used by
`list(unique_ids)` at line 134 is modelled separately, see
`create_vectorstore`). -/
def dedupGo : List (Document × String) → List String → List Document → List String × List Document
  | [], seen, acc => (seen, acc)
  | (chunk, i) :: rest, seen, acc =>
    if i ∈ seen then dedupGo rest seen acc
    else dedupGo rest (seen ++ [i]) (acc ++ [chunk])

/-- The contents of the `unique_ids` set, in insertion order. -/
def unique_ids (chunks : List Document) : List String :=
  (dedupGo (chunks.zip (chunk_ids chunks)) [] []).1

/-- The `unique_chunks` list of lines 121-128. -/
def unique_chunks (chunks : List Document) : List Document :=
  (dedupGo (chunks.zip (chunk_ids chunks)) [] []).2

/-- One stored entry: (id, chunk content).  The stored embedding vector is
not modelled: no claim reads it, and the store receives it from the embedding
capability, not from the code under verification. -/
abbrev Entry := String × String

/-- The on-disk Chroma state: collection name → entries. -/
abbrev StoreState := List (String × List Entry)

/-- The entries of a named collection (empty if the collection does not exist). -/
def getCollection (st : StoreState) (name : String) : List Entry :=
  match st.find? (fun p => p.1 == name) with
  | some p => p.2
  | none => []

/-- Replace (or create) a named collection. -/
def setCollection : StoreState → String → List Entry → StoreState
  | [], name, entries => [(name, entries)]
  | c :: cs, name, entries =>
    if c.1 = name then (name, entries) :: cs else c :: setCollection cs name entries

/-- Add one (id, content) pair, overwriting the entry with the same id if one
exists, appending otherwise. -/
def upsertEntry : List Entry → String → String → List Entry
  | [], i, content => [(i, content)]
  | e :: es, i, content =>
    if e.1 = i then (i, content) :: es else e :: upsertEntry es i content

/-- Add all (id, content) pairs in order. -/
def upsertAll (entries : List Entry) (pairs : List (String × String)) : List Entry :=
  pairs.foldl (fun es pr => upsertEntry es pr.1 pr.2) entries

/-- Modelled from the spec: `Chroma.from_documents` is an external library
call, not part of src/; the spec's Open Questions state that the source
"relies on the underlying store's default collision handling".  That default
is modelled here: get-or-create the named collection and add the documents
under the given ids positionally (an id already present is overwritten, not
duplicated).  Each document is passed to the embedding capability, whose
failure propagates.  No error is ever raised for a pre-existing collection
name — no name-collision check exists in the library default or anywhere in
src/. -/
def chromaFromDocuments (embed : String → Except PyErr (List Int)) (st : StoreState)
    (name : String) (docs : List Document) (ids : List String) :
    Except PyErr StoreState := do
  let _ ← docs.mapM fun d => embed d.page_content
  pure (setCollection st name
    (upsertAll (getCollection st name) (ids.zip (docs.map (·.page_content)))))

/-- `create_vectorstore(chunks, embedding_function, file_name, ...)`
(lines 104-141).  `setOrder` models the enumeration order of the Python set
`unique_ids` in `ids=list(unique_ids)` at line 134: a set enumerates its
elements in an unspecified order (CPython string hashing is randomized per
process), so any permutation of the set contents is a possible value. -/
def create_vectorstore (embed : String → Except PyErr (List Int))
    (setOrder : List String → List String) (st : StoreState)
    (chunks : List Document) (file_name : String) : Except PyErr StoreState :=
  chromaFromDocuments embed st (clean_filename file_name)
    (unique_chunks chunks) (setOrder (unique_ids chunks))

/-- `create_vectorstore_from_texts(documents, file_name)` (lines 144-163):
split with the fixed defaults 1000/200, then `create_vectorstore`. -/
def create_vectorstore_from_texts (embed : String → Except PyErr (List Int))
    (setOrder : List String → List String) (st : StoreState)
    (documents : List Document) (file_name : String) : Except PyErr StoreState :=
  create_vectorstore embed setOrder st (split_document documents 1000 200) file_name

/-! ## `get_pdf_text` (functions.py lines 39-67) -/

/-- The observable outcome of one `get_pdf_text` call: the returned value or
propagated exception, whether the temporary file was ever created, whether it
still exists afterwards, and how many times `os.unlink` ran. -/
structure PdfLoadResult where
  result : Except PyErr (List Document)
  tempCreated : Bool
  tempExists : Bool
  unlinkCalls : Nat
  deriving Repr

/-- `get_pdf_text(uploaded_file)`, as a function of the outcomes of its
effectful steps: `uploaded_file.read()` (`readRes`),
`tempfile.NamedTemporaryFile(delete=False)` (`mkTempRes`), and
`PyPDFLoader(path).load()` (`loadRes`).  The body is a `try` block whose
`finally` clause runs `os.unlink(temp_file.name)`:
* if `read()` or the temp-file creation raises, the local `temp_file` was
  never bound, so the `finally` clause itself raises `UnboundLocalError`,
  which replaces the in-flight exception; `os.unlink` is never reached;
* once the temp file is created, written and closed, it exists on disk, and
  whichever way the `load()` call ends the `finally` clause unlinks it
  exactly once before the return value or the exception leaves the
  function. -/
def get_pdf_text (readRes : Except PyErr (List Nat)) (mkTempRes : Except PyErr Unit)
    (loadRes : List Nat → Except PyErr (List Document)) : PdfLoadResult :=
  match readRes with
  | .error _ => ⟨.error .unboundLocal, false, false, 0⟩
  | .ok bytes =>
    match mkTempRes with
    | .error _ => ⟨.error .unboundLocal, false, false, 0⟩
    | .ok _ =>
      match loadRes bytes with
      | .ok docs => ⟨.ok docs, true, false, 1⟩
      | .error e => ⟨.error e, true, false, 1⟩

/-! ## `ExtractedInfo`, `format_docs`, `query_document`
(functions.py lines 180-229) -/

/-- The four-field schema the class at lines 180-185 describes (see the C2
theorem: evaluating that class definition actually raises `NameError`; values
of this shape are what the structured-output model call is configured to
return). -/
structure ExtractedInfo where
  invoice_items : String
  invoice_date : String
  business_name : String
  total_amount : String
  deriving DecidableEq, Repr

/-- `format_docs(docs)` (lines 188-195): join the page contents with a blank
line. -/
def format_docs (docs : List Document) : String :=
  String.intercalate "\n\n" (docs.map (·.page_content))

/-- `PROMPT_TEMPLATE` (lines 167-178) with `{context}` and `{question}`
substituted, which is the prompt the RAG chain sends to the model. -/
def promptFrom (context question : String) : String :=
  "\nYou are an assistant for question-answering tasks.\nUse the following pieces of retrieved context to answer\nthe question. If you don't know the answer, say that you\ndon't know. DON'T MAKE UP ANYTHING.\n\n"
    ++ context ++ "\n\n---\n\nAnswer the question based on the above context: "
    ++ question ++ "\n"

/-- One row of a pandas DataFrame, as the ordered list of
(column name, value) pairs. -/
abbrev Row := List (String × String)

/-- The uploaded file handed to the pipeline: its `.name` attribute and the
outcome of its `.read()` call. -/
structure UploadedFile where
  name : String
  readRes : Except PyErr (List Nat)

/-- The external capabilities of the pipeline, each consumed as a function:
the PDF parser, the embedding model, the similarity retriever, the
structured-output language model, the temp-file creation outcome, and the
Python set-enumeration order (see `create_vectorstore`). -/
structure Caps where
  mkTemp : Except PyErr Unit
  load : List Nat → Except PyErr (List Document)
  embed : String → Except PyErr (List Int)
  retrieve : List Entry → String → Except PyErr (List Document)
  llm : String → Except PyErr ExtractedInfo
  setOrder : List String → List String

/-- `query_document(vectorstore, query)` (lines 198-229): retrieve from the
collection, format the context, build the prompt, invoke the structured-output
model, and shape the single-row DataFrame with the four columns of lines
222-227. -/
def query_document (caps : Caps) (st : StoreState) (collName : String)
    (query : String) : Except PyErr Row := do
  let docs ← caps.retrieve (getCollection st collName) query
  let context := format_docs docs
  let prompt := promptFrom context query
  let resp ← caps.llm prompt
  pure [("Invoice Items", resp.invoice_items), ("Invoice Date", resp.invoice_date),
        ("Business Name", resp.business_name), ("Total Amount", resp.total_amount)]

/-! ## `process_multiple_pdfs` (functions.py lines 232-246) -/

/-- The per-file body of the loop at lines 236-242: parse, build the vector
store, query it, and prepend the `file_name` column
(`df.insert(0, 'file_name', file_name)`).  Any exception propagates — the
loop body has no handler. -/
def processFile (caps : Caps) (st : StoreState) (file : UploadedFile)
    (query : String) : Except PyErr (Row × StoreState) := do
  let documents ← (get_pdf_text file.readRes caps.mkTemp caps.load).result
  let st2 ← create_vectorstore_from_texts caps.embed caps.setOrder st documents file.name
  let df ← query_document caps st2 (clean_filename file.name) query
  pure (("file_name", file.name) :: df, st2)

/-- The loop of lines 235-242 over all uploaded files, in order, threading the
on-disk store state and collecting one row per file. -/
def processLoop (caps : Caps) (query : String) :
    List UploadedFile → StoreState → Except PyErr (List Row × StoreState)
  | [], st => .ok ([], st)
  | f :: fs, st => do
    let rs ← processFile caps st f query
    let rest ← processLoop caps query fs rs.2
    pure (rs.1 :: rest.1, rest.2)

/-- `process_multiple_pdfs(pdf_files, query)` (lines 232-246).  Line 244 runs
`pd.concat(results, ignore_index=True)`; pandas raises
`ValueError("No objects to concatenate")` when `results` is empty, i.e. when
`pdf_files` is empty. -/
def process_multiple_pdfs (caps : Caps) (st : StoreState)
    (pdf_files : List UploadedFile) (query : String) : Except PyErr (List Row) := do
  let res ← processLoop caps query pdf_files st
  if res.1 = [] then .error (.valueError "No objects to concatenate") else pure res.1

/-! ## Module top-level evaluation (functions.py lines 1-246, claim C2)

Importing the module executes its top level: each `import` binds names, each
`def` binds a name without evaluating the body, each assignment binds a name,
and each `class` statement evaluates its bases and its body immediately.
The model below records, for each top-level statement of functions.py in
source order, the names it binds and (for the class statement) the names its
evaluation reads; evaluating a statement that reads an unbound name raises
`NameError` and aborts the module. -/

/-- One top-level statement, reduced to its name-binding behavior. -/
inductive TopStmt
  | importNames (names : List String)
  | defineName (name : String)
  | classDef (name : String) (bodyRefs : List String)

/-- Execute the top level: thread the environment of bound names; a class
definition first resolves every name its evaluation reads (bases, annotations,
and default-value expressions such as `Field(...)`), in order. -/
def evalStmts : List TopStmt → List String → Except String (List String)
  | [], env => .ok env
  | .importNames ns :: rest, env => evalStmts rest (env ++ ns)
  | .defineName n :: rest, env => evalStmts rest (env ++ [n])
  | .classDef n refs :: rest, env =>
    match refs.find? (fun r => !env.contains r) with
    | some missing => .error ("NameError: name '" ++ missing ++ "' is not defined")
    | none => evalStmts rest (env ++ [n])

/-- The top-level statements of functions.py in source order.  Line 7 imports
only `BaseModel` from pydantic; the `ExtractedInfo` class body (lines 180-185)
evaluates its base `BaseModel`, the annotation `str` (a builtin), and four
calls to `Field` — which no statement binds. -/
def moduleStmts : List TopStmt :=
  [ .importNames ["PyPDFLoader"],
    .importNames ["RecursiveCharacterTextSplitter"],
    .importNames ["Chroma"],
    .importNames ["RunnablePassthrough"],
    .importNames ["ChatPromptTemplate"],
    .importNames ["BaseModel"],
    .importNames ["ChatOllama"],
    .importNames ["OllamaEmbeddings"],
    .importNames ["st"],
    .importNames ["pd"],
    .importNames ["uuid"],
    .importNames ["re"],
    .importNames ["os"],
    .importNames ["tempfile"],
    .defineName "clean_filename",
    .defineName "get_pdf_text",
    .defineName "split_document",
    .defineName "get_embedding_function",
    .defineName "create_vectorstore",
    .defineName "create_vectorstore_from_texts",
    .defineName "PROMPT_TEMPLATE",
    .classDef "ExtractedInfo" ["BaseModel", "str", "Field"],
    .defineName "format_docs",
    .defineName "query_document",
    .defineName "process_multiple_pdfs" ]

/-- The Python builtins referenced anywhere in the module. -/
def builtinNames : List String :=
  ["str", "len", "set", "zip", "list", "range", "print", "enumerate"]

/-- The outcome of `import functions`. -/
def evalModule : Except String (List String) := evalStmts moduleStmts builtinNames

/-- Look up a stored entry by id (first match). -/
def lookupEntry (entries : List Entry) (i : String) : Option String :=
  (entries.find? (fun e => e.1 == i)).map (·.2)

/-- The length of the longest suffix of `a` that is also a prefix of `b`: the
overlap between the end of one chunk and the start of the next, as the spec
describes it. -/
def overlapLen (a b : List Char) : Nat :=
  ((List.range (min a.length b.length + 1)).filter
    (fun k => a.drop (a.length - k) == b.take k)).foldr max 0

/-! ## Concrete capabilities for witnesses -/

/-- A deterministic parser double: byte content `[1]` is a readable one-page
PDF with text "inv"; anything else is corrupt. -/
def demoLoad : List Nat → Except PyErr (List Document) := fun bs =>
  if bs = [1] then Except.ok [⟨"inv"⟩] else Except.error PyErr.parseFailure

/-- Deterministic capability doubles for concrete runs: temp-file creation
succeeds, embedding returns a fixed vector, retrieval returns the collection's
documents, the model returns fixed field values, and the set enumerates in
insertion order. -/
def demoCaps : Caps :=
  ⟨Except.ok (), demoLoad, fun _ => Except.ok [0],
   fun entries _ => Except.ok (entries.map fun en => ⟨en.2⟩),
   fun _ => Except.ok ⟨"items", "date", "biz", "total"⟩,
   fun l => l⟩

/-- An uploaded file that parses. -/
def fileA : UploadedFile := ⟨"f1.pdf", Except.ok [1]⟩

/-- A second uploaded file that parses. -/
def fileB : UploadedFile := ⟨"f2.pdf", Except.ok [1]⟩

/-- An uploaded file whose parse fails. -/
def fileBad : UploadedFile := ⟨"bad.pdf", Except.ok [2]⟩

/-- The row the demo capabilities produce for a file named `n`. -/
def demoRow (n : String) : Row :=
  [("file_name", n), ("Invoice Items", "items"), ("Invoice Date", "date"),
   ("Business Name", "biz"), ("Total Amount", "total")]

/-- The store state after processing `fileA` with the demo capabilities. -/
def demoSt : StoreState := [("f1.pdf", [(uuid5DNS "inv", "inv")])]

/-- Specification-side definition, following the spec's words for
deduplication ("the deduplicated output contains each distinct content exactly
once, in first-occurrence order"): keep the first occurrence of each chunk
content, by content equality.  Compared below with the id-based dedup the code
performs. -/
def dedupByContent : List Document → List String → List Document
  | [], _ => []
  | c :: cs, seen =>
    if c.page_content ∈ seen then dedupByContent cs seen
    else c :: dedupByContent cs (seen ++ [c.page_content])

/-- Accumulator-free form of the dedup loop, for the proofs below. -/
def dedupPure : List (Document × String) → List String → List Document
  | [], _ => []
  | (c, i) :: rest, seen =>
    if i ∈ seen then dedupPure rest seen
    else c :: dedupPure rest (seen ++ [i])

/-- The row/file relation of the batch loop: each row is the five fixed
columns in order, headed by the matching file's name. -/
def rowMatchesFile (row : Row) (file : UploadedFile) : Prop :=
  row.map Prod.fst =
    ["file_name", "Invoice Items", "Invoice Date", "Business Name", "Total Amount"] ∧
  row.head? = some ("file_name", file.name)

/-! # Theorems -/

/-- C2: evaluating the module's top level raises
`NameError: name 'Field' is not defined` — the `ExtractedInfo` class body
(lines 180-185) applies `Field`, which line 7 does not import from pydantic
(only `BaseModel`) and which nothing else binds.  The module therefore never
finishes importing (so the four-field schema is never produced and the later
definitions `query_document` and `process_multiple_pdfs` are never bound). -/
theorem module_toplevel_raises_name_error :
    evalModule = Except.error "NameError: name 'Field' is not defined" := by
  rfl

/-- C9: whenever the temporary file is actually materialized (the read and the
temp-file creation succeed), `get_pdf_text` deletes it on both exit paths of
the parse call: whether `loader.load()` returns documents or raises, the
`finally` clause unlinks the file exactly once before the result or the error
leaves the function, and the file no longer exists afterwards. -/
theorem temp_file_deleted_on_parse_paths (bytes : List Nat)
    (loadRes : List Nat → Except PyErr (List Document)) :
    (get_pdf_text (Except.ok bytes) (Except.ok ()) loadRes).tempCreated = true ∧
    (get_pdf_text (Except.ok bytes) (Except.ok ()) loadRes).tempExists = false ∧
    (get_pdf_text (Except.ok bytes) (Except.ok ()) loadRes).unlinkCalls = 1 ∧
    (get_pdf_text (Except.ok bytes) (Except.ok ()) loadRes).result = loadRes bytes := by
  cases h : loadRes bytes <;> simp [get_pdf_text, h]

/-- C10: if `uploaded_file.read()` (or the temp-file creation) raises, the
local `temp_file` is never bound, so the `finally` clause raises
`UnboundLocalError` in place of the original error and `os.unlink` never
runs: the caller sees the unbound-variable error and no cleanup is
attempted. -/
theorem unbound_temp_var_masks_read_error (e e2 : PyErr) (bytes : List Nat)
    (mk : Except PyErr Unit) (loadRes : List Nat → Except PyErr (List Document)) :
    get_pdf_text (Except.error e) mk loadRes =
      ⟨Except.error PyErr.unboundLocal, false, false, 0⟩ ∧
    get_pdf_text (Except.ok bytes) (Except.error e2) loadRes =
      ⟨Except.error PyErr.unboundLocal, false, false, 0⟩ := by
  constructor
  · cases mk <;> rfl
  · rfl

/-- C6: the chunk identity `str(uuid.uuid5(uuid.NAMESPACE_DNS, content))`
(line 118) is a pure function of the chunk text alone, so it is deterministic
across runs and source documents; identical contents always get identical
identities, and — under the assumed collision resistance of the name-based
hash, taken as the hypothesis `hcr` — the identities are equal iff the
contents are equal. -/
theorem chunk_identity_deterministic_content_only (c1 c2 : String)
    (hcr : c1 ≠ c2 → uuid5DNS c1 ≠ uuid5DNS c2) :
    uuid5DNS c1 = uuid5DNS c1 ∧ (uuid5DNS c1 = uuid5DNS c2 ↔ c1 = c2) := by
  refine ⟨rfl, fun h => ?_, fun h => by rw [h]⟩
  by_contra hne
  exact hcr hne h

/-- Witness for C6 at the concrete contents "a" and "b" (whose computed
identities indeed differ). -/
theorem chunk_identity_deterministic_content_only_witness :
    ("a" ≠ "b" → uuid5DNS "a" ≠ uuid5DNS "b") ∧
    (uuid5DNS "a" = uuid5DNS "a" ∧ (uuid5DNS "a" = uuid5DNS "b" ↔ "a" = "b")) := by
  have hne : uuid5DNS "a" ≠ uuid5DNS "b" := by decide
  exact ⟨fun _ => hne, chunk_identity_deterministic_content_only "a" "b" fun _ => hne⟩

/-- C1 (code bug): line 134 hands the store `ids=list(unique_ids)` — an
arbitrary enumeration of a Python set — instead of the id list aligned with
`unique_chunks`.  Under the reversal enumeration (a permutation of the set's
contents, hence a possible enumeration; CPython randomizes string hashing per
process), the chunk with content "a" is persisted under the identity of "b":
looking up the key `uuid5("a")` yields the chunk "b", whose content does not
hash to that key. -/
theorem uuid5_ids_misaligned_with_unique_chunks :
    (List.reverse (unique_ids [⟨"a"⟩, ⟨"b"⟩])).Perm (unique_ids [⟨"a"⟩, ⟨"b"⟩]) ∧
    uuid5DNS "a" ≠ uuid5DNS "b" ∧
    lookupEntry
      (getCollection
        ((create_vectorstore (fun _ => Except.ok [0]) List.reverse []
            [⟨"a"⟩, ⟨"b"⟩] "Invoice.pdf").toOption.getD [])
        "Invoice.pdf")
      (uuid5DNS "a") = some "b" := by
  refine ⟨List.reverse_perm _, by decide, by decide⟩

/-- Peel one `Except` bind that ended in success. -/
theorem exceptBind_ok {ε α β : Type} {x : Except ε α} {f : α → Except ε β} {b : β}
    (h : Except.bind x f = Except.ok b) : ∃ a, x = Except.ok a ∧ f a = Except.ok b := by
  cases x with
  | error e => simp [Except.bind] at h
  | ok a => exact ⟨a, rfl, by simpa [Except.bind] using h⟩

/-- A successful `query_document` always returns the single row shaped by
lines 222-227: the four fixed columns filled from the structured response. -/
theorem query_document_ok_shape (caps : Caps) (st : StoreState) (coll query : String)
    (df : Row) (h : query_document caps st coll query = Except.ok df) :
    ∃ resp : ExtractedInfo,
      df = [("Invoice Items", resp.invoice_items), ("Invoice Date", resp.invoice_date),
            ("Business Name", resp.business_name), ("Total Amount", resp.total_amount)] := by
  unfold query_document at h
  obtain ⟨docs, -, h⟩ := exceptBind_ok h
  obtain ⟨resp, -, h⟩ := exceptBind_ok h
  exact ⟨resp, by simpa [pure, Except.pure] using h.symm⟩

/-- A successful `processFile` returns the row of `query_document` with the
`file_name` column inserted in front (line 241). -/
theorem processFile_ok_shape (caps : Caps) (st : StoreState) (file : UploadedFile)
    (query : String) (row : Row) (st2 : StoreState)
    (h : processFile caps st file query = Except.ok (row, st2)) :
    ∃ resp : ExtractedInfo,
      row = ("file_name", file.name) ::
        [("Invoice Items", resp.invoice_items), ("Invoice Date", resp.invoice_date),
         ("Business Name", resp.business_name), ("Total Amount", resp.total_amount)] := by
  unfold processFile at h
  obtain ⟨docs, -, h⟩ := exceptBind_ok h
  obtain ⟨stv, -, h⟩ := exceptBind_ok h
  obtain ⟨df, hdf, h⟩ := exceptBind_ok h
  obtain ⟨resp, hresp⟩ := query_document_ok_shape caps stv (clean_filename file.name) query df hdf
  refine ⟨resp, ?_⟩
  have : (("file_name", file.name) :: df, stv) = (row, st2) := by
    simpa [pure, Except.pure] using h
  simp [hresp] at this
  simp [this.1.symm, hresp]

/-- A successful batch loop pairs rows with input files one-to-one, in input
order. -/
theorem processLoop_ok_rel (caps : Caps) (query : String) :
    ∀ (files : List UploadedFile) (st : StoreState) (rows : List Row) (st' : StoreState),
      processLoop caps query files st = Except.ok (rows, st') →
      List.Forall₂ rowMatchesFile rows files := by
  intro files
  induction files with
  | nil =>
    intro st rows st' h
    simp only [processLoop] at h
    cases h
    exact List.Forall₂.nil
  | cons f fs ih =>
    intro st rows st' h
    simp only [processLoop] at h
    obtain ⟨rs, hfile, h⟩ := exceptBind_ok h
    obtain ⟨rest, hrest, h⟩ := exceptBind_ok h
    have hpair : (rs.1 :: rest.1, rest.2) = (rows, st') := by
      simpa [pure, Except.pure] using h
    have hrows : rs.1 :: rest.1 = rows := congrArg Prod.fst hpair
    obtain ⟨resp, hrow⟩ := processFile_ok_shape caps st f query rs.1 rs.2
      (by rw [← hfile])
    exact hrows ▸ List.Forall₂.cons (by simp [rowMatchesFile, hrow])
      (ih rs.2 rest.1 rest.2 (by rw [← hrest]))

/-- C7 counterexample: on the empty input file list `process_multiple_pdfs`
does not return a zero-row table; `pd.concat([])` at line 244 raises
`ValueError("No objects to concatenate")`. -/
theorem empty_batch_concat_raises :
    process_multiple_pdfs demoCaps [] [] "q" =
      Except.error (PyErr.valueError "No objects to concatenate") := rfl

/-- C7 (amended): whenever `process_multiple_pdfs` returns a table at all (it
raises instead when the input list is empty — see the counterexample — or
when any file's processing fails), the table has exactly one row per input
file, the rows are in input order, each row carries exactly the columns
{file_name, Invoice Items, Invoice Date, Business Name, Total Amount}, and
row i's `file_name` value is the name of the i-th input file. -/
theorem batch_rows_match_input_order (caps : Caps) (st : StoreState)
    (files : List UploadedFile) (query : String) (rows : List Row)
    (h : process_multiple_pdfs caps st files query = Except.ok rows) :
    rows.length = files.length ∧ List.Forall₂ rowMatchesFile rows files := by
  unfold process_multiple_pdfs at h
  obtain ⟨res, hloop, h⟩ := exceptBind_ok h
  have hrows : res.1 = rows := by
    by_cases hnil : res.1 = []
    · simp [hnil] at h
    · simpa [hnil, pure, Except.pure] using h
  have hrel := processLoop_ok_rel caps query files st res.1 res.2 (by rw [← hloop])
  rw [hrows] at hrel
  exact ⟨hrel.length_eq, hrel⟩

/-- C8: the batch loop is fail-fast — if, after the files in `pre` processed
successfully, processing `file` fails with `e`, then the whole
`process_multiple_pdfs` call propagates `e` instead of returning any table
(so no table containing a fabricated row for `file` is ever produced). -/
theorem batch_fail_fast_propagates_error (caps : Caps) (query : String)
    (pre : List UploadedFile) (file : UploadedFile) (post : List UploadedFile)
    (st st' : StoreState) (rows : List Row) (e : PyErr)
    (hpre : processLoop caps query pre st = Except.ok (rows, st'))
    (hfail : processFile caps st' file query = Except.error e) :
    process_multiple_pdfs caps st (pre ++ file :: post) query = Except.error e := by
  have hloop : ∀ (p : List UploadedFile) (s : StoreState) (rs : List Row),
      processLoop caps query p s = Except.ok (rs, st') →
      processLoop caps query (p ++ file :: post) s = Except.error e := by
    intro p
    induction p with
    | nil =>
      intro s rs hp
      simp only [processLoop] at hp
      have hs : s = st' := congrArg Prod.snd (Except.ok.inj hp)
      rw [← hs] at hfail
      show Except.bind (processFile caps s file query) _ = Except.error e
      rw [hfail]
      rfl
    | cons f fs ih =>
      intro s rs hp
      simp only [processLoop] at hp
      obtain ⟨r1, hf1, hp⟩ := exceptBind_ok hp
      obtain ⟨rest, hrest, hp⟩ := exceptBind_ok hp
      have hrest2 : rest.2 = st' := by
        have : (r1.1 :: rest.1, rest.2) = (rs, st') := by
          simpa [pure, Except.pure] using hp
        exact congrArg Prod.snd this
      show Except.bind (processFile caps s f query) _ = Except.error e
      rw [hf1]
      show Except.bind (processLoop caps query (fs ++ file :: post) r1.2) _ = Except.error e
      rw [ih r1.2 rest.1 (by rw [← hrest2]; exact hrest)]
      rfl
  unfold process_multiple_pdfs
  show Except.bind (processLoop caps query (pre ++ file :: post) st) _ = Except.error e
  rw [hloop pre st rows hpre]
  rfl

/-- Witness for C7 (amended) on a concrete two-file batch run with the demo
capabilities. -/
theorem batch_rows_match_input_order_witness :
    process_multiple_pdfs demoCaps [] [fileA, fileB] "q" =
      Except.ok [demoRow "f1.pdf", demoRow "f2.pdf"] ∧
    (([demoRow "f1.pdf", demoRow "f2.pdf"] : List Row).length =
        ([fileA, fileB] : List UploadedFile).length ∧
      List.Forall₂ rowMatchesFile [demoRow "f1.pdf", demoRow "f2.pdf"] [fileA, fileB]) := by
  have h : process_multiple_pdfs demoCaps [] [fileA, fileB] "q" =
      Except.ok [demoRow "f1.pdf", demoRow "f2.pdf"] := rfl
  exact ⟨h, batch_rows_match_input_order demoCaps [] [fileA, fileB] "q"
    [demoRow "f1.pdf", demoRow "f2.pdf"] h⟩

theorem dedupGo_acc : ∀ (ps : List (Document × String)) (seen : List String)
    (acc : List Document), (dedupGo ps seen acc).2 = acc ++ dedupPure ps seen := by
  intro ps
  induction ps with
  | nil => intro seen acc; simp [dedupGo, dedupPure]
  | cons p rest ih =>
    intro seen acc
    obtain ⟨c, i⟩ := p
    by_cases h : i ∈ seen <;> simp [dedupGo, dedupPure, h, ih]

theorem dedupPure_eq_byContent (A : List String)
    (hinj : ∀ a ∈ A, ∀ b ∈ A, uuid5DNS a = uuid5DNS b → a = b) :
    ∀ (chunks : List Document) (seenC : List String),
      (∀ c ∈ chunks, c.page_content ∈ A) → (∀ s ∈ seenC, s ∈ A) →
      dedupPure (chunks.zip (chunk_ids chunks)) (seenC.map uuid5DNS) =
        dedupByContent chunks seenC := by
  intro chunks
  induction chunks with
  | nil => intro seenC _ _; simp [dedupPure, dedupByContent, chunk_ids]
  | cons c cs ih =>
    intro seenC hA hseen
    have hzip : (c :: cs).zip (chunk_ids (c :: cs)) =
        (c, uuid5DNS c.page_content) :: cs.zip (chunk_ids cs) := by
      simp [chunk_ids]
    rw [hzip]
    have hcA : c.page_content ∈ A := hA c (List.mem_cons_self c cs)
    by_cases hmem : c.page_content ∈ seenC
    · have hid : uuid5DNS c.page_content ∈ seenC.map uuid5DNS :=
        List.mem_map_of_mem _ hmem
      simp only [dedupPure, dedupByContent, if_pos hid, if_pos hmem]
      exact ih seenC (fun x hx => hA x (List.mem_cons_of_mem _ hx)) hseen
    · have hid : uuid5DNS c.page_content ∉ seenC.map uuid5DNS := by
        intro hcon
        obtain ⟨s, hs, heq⟩ := List.mem_map.mp hcon
        exact hmem (hinj s (hseen s hs) c.page_content hcA heq ▸ hs)
      simp only [dedupPure, dedupByContent, if_neg hid, if_neg hmem]
      refine congrArg (c :: ·) ?_
      have hmap : (seenC ++ [c.page_content]).map uuid5DNS =
          seenC.map uuid5DNS ++ [uuid5DNS c.page_content] := by simp
      rw [← hmap]
      refine ih (seenC ++ [c.page_content])
        (fun x hx => hA x (List.mem_cons_of_mem _ hx)) ?_
      intro s hs
      rcases List.mem_append.mp hs with h1 | h1
      · exact hseen s h1
      · rw [List.mem_singleton.mp h1]; exact hcA

theorem dedupByContent_sublist :
    ∀ (chunks : List Document) (seen : List String), List.Sublist (dedupByContent chunks seen) chunks := by
  intro chunks
  induction chunks with
  | nil => intro seen; simp [dedupByContent]
  | cons c cs ih =>
    intro seen
    by_cases h : c.page_content ∈ seen
    · simpa [dedupByContent, h] using (ih seen).cons c
    · simpa [dedupByContent, h] using (ih (seen ++ [c.page_content])).cons₂ c

theorem dedupByContent_mem :
    ∀ (chunks : List Document) (seen : List String) (s : String),
      s ∈ (dedupByContent chunks seen).map Document.page_content ↔
        (s ∈ chunks.map Document.page_content ∧ s ∉ seen) := by
  intro chunks
  induction chunks with
  | nil => intro seen s; simp [dedupByContent]
  | cons c cs ih =>
    intro seen s
    by_cases h : c.page_content ∈ seen
    · rw [show dedupByContent (c :: cs) seen = dedupByContent cs seen from by
        simp [dedupByContent, h]]
      rw [ih]
      constructor
      · rintro ⟨h1, h2⟩; exact ⟨by simp [h1], h2⟩
      · rintro ⟨h1, h2⟩
        rcases List.mem_map.mp h1 with ⟨d, hd, hds⟩
        rcases List.mem_cons.mp hd with rfl | hd'
        · exact absurd (hds ▸ h) h2
        · exact ⟨hds ▸ List.mem_map_of_mem _ hd', h2⟩
    · rw [show dedupByContent (c :: cs) seen =
          c :: dedupByContent cs (seen ++ [c.page_content]) from by
        simp [dedupByContent, h]]
      simp only [List.map_cons, List.mem_cons, ih, List.mem_append,
        List.mem_singleton]
      by_cases hcc : s = c.page_content
      · subst hcc; simp [h]
      · simp [hcc]

theorem dedupByContent_nodup :
    ∀ (chunks : List Document) (seen : List String),
      ((dedupByContent chunks seen).map Document.page_content).Nodup := by
  intro chunks
  induction chunks with
  | nil => intro seen; simp [dedupByContent]
  | cons c cs ih =>
    intro seen
    by_cases h : c.page_content ∈ seen
    · simpa [dedupByContent, h] using ih seen
    · rw [show dedupByContent (c :: cs) seen =
          c :: dedupByContent cs (seen ++ [c.page_content]) from by
        simp [dedupByContent, h]]
      refine List.nodup_cons.mpr ⟨fun hc => ?_, ih _⟩
      exact ((dedupByContent_mem cs (seen ++ [c.page_content]) c.page_content).mp hc).2
        (List.mem_append.mpr (Or.inr (List.mem_singleton.mpr rfl)))

/-- C5: under the assumed collision resistance of the chunk identity on the
input's contents (hypothesis `hinj`, cf. the spec's §8 assumption), the
`unique_chunks` list built at lines 117-128 is exactly the content-level
first-occurrence dedup of the input: it keeps each distinct content exactly
once (duplicate-free, same content set as the input), and the retained
occurrences appear in input order (a sublist of the input). -/
theorem dedup_keeps_first_occurrence_by_content (chunks : List Document)
    (hinj : ∀ a ∈ chunks.map Document.page_content,
      ∀ b ∈ chunks.map Document.page_content, uuid5DNS a = uuid5DNS b → a = b) :
    unique_chunks chunks = dedupByContent chunks [] ∧
    ((unique_chunks chunks).map Document.page_content).Nodup ∧
    List.Sublist (unique_chunks chunks) chunks ∧
    ∀ s, s ∈ (unique_chunks chunks).map Document.page_content ↔
      s ∈ chunks.map Document.page_content := by
  have heq : unique_chunks chunks = dedupByContent chunks [] := by
    unfold unique_chunks
    rw [dedupGo_acc]
    simpa using dedupPure_eq_byContent (chunks.map Document.page_content) hinj chunks []
      (fun c hc => List.mem_map_of_mem _ hc) (by simp)
  refine ⟨heq, heq ▸ dedupByContent_nodup chunks [], heq ▸ dedupByContent_sublist chunks [], ?_⟩
  intro s
  rw [heq, dedupByContent_mem]
  simp

/-- Witness for C5 on the concrete chunk list ["a", "b", "a"]: the computed
identities of the distinct contents differ, and the dedup drops exactly the
repeated "a". -/
theorem dedup_keeps_first_occurrence_by_content_witness :
    (∀ a ∈ ([⟨"a"⟩, ⟨"b"⟩, ⟨"a"⟩] : List Document).map Document.page_content,
      ∀ b ∈ ([⟨"a"⟩, ⟨"b"⟩, ⟨"a"⟩] : List Document).map Document.page_content,
        uuid5DNS a = uuid5DNS b → a = b) ∧
    unique_chunks [⟨"a"⟩, ⟨"b"⟩, ⟨"a"⟩] =
      dedupByContent [⟨"a"⟩, ⟨"b"⟩, ⟨"a"⟩] [] := by
  have hinj : ∀ a ∈ ([⟨"a"⟩, ⟨"b"⟩, ⟨"a"⟩] : List Document).map Document.page_content,
      ∀ b ∈ ([⟨"a"⟩, ⟨"b"⟩, ⟨"a"⟩] : List Document).map Document.page_content,
        uuid5DNS a = uuid5DNS b → a = b := by decide
  exact ⟨hinj, (dedup_keeps_first_occurrence_by_content [⟨"a"⟩, ⟨"b"⟩, ⟨"a"⟩] hinj).1⟩

/-- Witness for C8 on a concrete batch where the second file's parse fails:
the whole run returns the parse error. -/
theorem batch_fail_fast_propagates_error_witness :
    processLoop demoCaps "q" [fileA] [] = Except.ok ([demoRow "f1.pdf"], demoSt) ∧
    processFile demoCaps demoSt fileBad "q" = Except.error PyErr.parseFailure ∧
    process_multiple_pdfs demoCaps [] [fileA, fileBad, fileB] "q" =
      Except.error PyErr.parseFailure := by
  refine ⟨rfl, rfl, ?_⟩
  exact batch_fail_fast_propagates_error demoCaps "q" [fileA] fileBad [fileB] [] demoSt
    [demoRow "f1.pdf"] PyErr.parseFailure rfl rfl

theorem lookupEntry_cons (e : Entry) (es : List Entry) (k : String) :
    lookupEntry (e :: es) k = if e.1 = k then some e.2 else lookupEntry es k := by
  unfold lookupEntry
  by_cases h : e.1 = k
  · rw [List.find?_cons_of_pos _ (by simp [h])]
    simp [h]
  · rw [List.find?_cons_of_neg _ (by simp [h])]
    simp [h]

theorem lookupEntry_upsert_self (k v : String) :
    ∀ es : List Entry, lookupEntry (upsertEntry es k v) k = some v := by
  intro es
  induction es with
  | nil => simp [upsertEntry, lookupEntry_cons]
  | cons e es ih =>
    by_cases h : e.1 = k
    · simp [upsertEntry, h, lookupEntry_cons]
    · simp [upsertEntry, h, lookupEntry_cons, ih]

theorem lookupEntry_upsert_other (k v k' : String) (hne : k' ≠ k) :
    ∀ es : List Entry, lookupEntry (upsertEntry es k v) k' = lookupEntry es k' := by
  intro es
  induction es with
  | nil => simp [upsertEntry, lookupEntry_cons, Ne.symm hne, lookupEntry]
  | cons e es ih =>
    by_cases h : e.1 = k
    · rw [show upsertEntry (e :: es) k v = (k, v) :: es from by simp [upsertEntry, h],
        lookupEntry_cons, lookupEntry_cons]
      simp [h, Ne.symm hne]
    · rw [show upsertEntry (e :: es) k v = e :: upsertEntry es k v from by
        simp [upsertEntry, h], lookupEntry_cons, lookupEntry_cons, ih]

theorem mem_upsertEntry (k v : String) (en : Entry) (hne : en.1 ≠ k) :
    ∀ es : List Entry, en ∈ es → en ∈ upsertEntry es k v := by
  intro es
  induction es with
  | nil => intro h; cases h
  | cons e es ih =>
    intro h
    by_cases hek : e.1 = k
    · rcases List.mem_cons.mp h with rfl | h2
      · exact absurd hek hne
      · simp [upsertEntry, hek, h2]
    · rcases List.mem_cons.mp h with rfl | h2
      · simp [upsertEntry, hek]
      · simp [upsertEntry, hek, ih h2]

theorem lookupEntry_upsertAll_not_mem (k : String) :
    ∀ (pairs : List (String × String)) (es : List Entry),
      k ∉ pairs.map Prod.fst → lookupEntry (upsertAll es pairs) k = lookupEntry es k := by
  intro pairs
  induction pairs with
  | nil => intro es _; rfl
  | cons p ps ih =>
    intro es hk
    have hk1 : k ≠ p.1 := fun h => hk (by simp [h])
    have hk2 : k ∉ ps.map Prod.fst := fun h => hk (by simp [h])
    show lookupEntry (upsertAll (upsertEntry es p.1 p.2) ps) k = lookupEntry es k
    rw [ih _ hk2, lookupEntry_upsert_other p.1 p.2 k hk1]

theorem lookupEntry_upsertAll_mem :
    ∀ (pairs : List (String × String)) (es : List Entry),
      (pairs.map Prod.fst).Nodup →
      ∀ pr ∈ pairs, lookupEntry (upsertAll es pairs) pr.1 = some pr.2 := by
  intro pairs
  induction pairs with
  | nil => intro es _ pr h; cases h
  | cons p ps ih =>
    intro es hnd pr hpr
    rw [List.map_cons] at hnd
    have hnd' := List.nodup_cons.mp hnd
    rcases List.mem_cons.mp hpr with rfl | h2
    · show lookupEntry (upsertAll (upsertEntry es pr.1 pr.2) ps) pr.1 = some pr.2
      rw [lookupEntry_upsertAll_not_mem pr.1 ps _ hnd'.1,
        lookupEntry_upsert_self pr.1 pr.2]
    · exact ih (upsertEntry es p.1 p.2) hnd'.2 pr h2

theorem mem_upsertAll (en : Entry) :
    ∀ (pairs : List (String × String)) (es : List Entry),
      en ∈ es → en.1 ∉ pairs.map Prod.fst → en ∈ upsertAll es pairs := by
  intro pairs
  induction pairs with
  | nil => intro es h _; exact h
  | cons p ps ih =>
    intro es h hk
    have hk1 : en.1 ≠ p.1 := fun hq => hk (by simp [hq])
    have hk2 : en.1 ∉ ps.map Prod.fst := fun hq => hk (by simp [hq])
    exact ih (upsertEntry es p.1 p.2) (mem_upsertEntry p.1 p.2 en hk1 es h) hk2

theorem getCollection_setCollection_same (name : String) (es : List Entry) :
    ∀ st : StoreState, getCollection (setCollection st name es) name = es := by
  intro st
  induction st with
  | nil => simp [setCollection, getCollection, List.find?]
  | cons c cs ih =>
    by_cases h : c.1 = name
    · simp [setCollection, h, getCollection, List.find?]
    · simpa [setCollection, h, getCollection, List.find?] using ih

theorem dedupGo_ids_nodup :
    ∀ (ps : List (Document × String)) (seen : List String) (acc : List Document),
      seen.Nodup → ((dedupGo ps seen acc).1).Nodup := by
  intro ps
  induction ps with
  | nil => intro seen acc h; simpa [dedupGo] using h
  | cons p rest ih =>
    intro seen acc h
    obtain ⟨c, i⟩ := p
    by_cases hm : i ∈ seen
    · simpa [dedupGo, hm] using ih seen acc h
    · have heq : dedupGo ((c, i) :: rest) seen acc =
          dedupGo rest (seen ++ [i]) (acc ++ [c]) := by
        simp [dedupGo, hm]
      rw [heq]
      refine ih (seen ++ [i]) (acc ++ [c]) (List.Nodup.append h (List.nodup_singleton i) ?_)
      simpa [List.disjoint_singleton] using hm

/-- The `unique_ids` set never holds two equal ids. -/
theorem unique_ids_nodup (chunks : List Document) : (unique_ids chunks).Nodup :=
  dedupGo_ids_nodup _ [] [] (by simp)

theorem dedupGo_len :
    ∀ (ps : List (Document × String)) (seen : List String) (acc : List Document),
      (dedupGo ps seen acc).1.length + acc.length =
        (dedupGo ps seen acc).2.length + seen.length := by
  intro ps
  induction ps with
  | nil => intro seen acc; simp [dedupGo, Nat.add_comm]
  | cons p rest ih =>
    intro seen acc
    obtain ⟨c, i⟩ := p
    by_cases hm : i ∈ seen
    · simpa [dedupGo, hm] using ih seen acc
    · have heq : dedupGo ((c, i) :: rest) seen acc =
          dedupGo rest (seen ++ [i]) (acc ++ [c]) := by
        simp [dedupGo, hm]
      rw [heq]
      have := ih (seen ++ [i]) (acc ++ [c])
      simp only [List.length_append, List.length_singleton] at this
      omega

/-- The dedup loop keeps ids and chunks in lockstep. -/
theorem unique_ids_length (chunks : List Document) :
    (unique_ids chunks).length = (unique_chunks chunks).length := by
  have := dedupGo_len (chunks.zip (chunk_ids chunks)) [] []
  simpa [unique_ids, unique_chunks] using this

/-- Successful `mapM` over `Except` when every element maps to a success. -/
theorem mapM_except_ok (embed : String → Except PyErr (List Int)) :
    ∀ docs : List Document, (∀ d ∈ docs, ∃ v, embed d.page_content = Except.ok v) →
      ∃ vs, docs.mapM (fun d => embed d.page_content) = Except.ok vs := by
  intro docs
  induction docs with
  | nil => intro _; exact ⟨[], rfl⟩
  | cons d ds ih =>
    intro h
    obtain ⟨v, hv⟩ := h d (List.mem_cons_self d ds)
    obtain ⟨vs, hvs⟩ := ih fun x hx => h x (List.mem_cons_of_mem d hx)
    refine ⟨v :: vs, ?_⟩
    rw [List.mapM_cons, hv, hvs]
    rfl

/-- C4 (amended): when a second, differently-sourced file cleans to the same
collection name as an existing collection, `create_vectorstore` reports no
error at all — there is no NameCollision check anywhere — and silently merges:
it returns normally, every (id, content) pair handed over for the second file
is present in the shared collection afterwards, and the first file's entries
survive only where the second file's ids do not overwrite them. -/
theorem second_file_upserts_into_existing_collection
    (embed : String → Except PyErr (List Int)) (ord2 : List String → List String)
    (st1 : StoreState) (f1 f2 : String) (c2 : List Document)
    (hclean : clean_filename f1 = clean_filename f2)
    (hembed : ∀ d ∈ unique_chunks c2, ∃ v, embed d.page_content = Except.ok v)
    (hord : (ord2 (unique_ids c2)).Perm (unique_ids c2)) :
    ∃ st2, create_vectorstore embed ord2 st1 c2 f2 = Except.ok st2 ∧
      (∀ pr ∈ (ord2 (unique_ids c2)).zip ((unique_chunks c2).map Document.page_content),
        lookupEntry (getCollection st2 (clean_filename f2)) pr.1 = some pr.2) ∧
      (∀ en ∈ getCollection st1 (clean_filename f1), en.1 ∉ ord2 (unique_ids c2) →
        en ∈ getCollection st2 (clean_filename f2)) := by
  obtain ⟨vs, hvs⟩ := mapM_except_ok embed (unique_chunks c2) hembed
  have hkeys : ((ord2 (unique_ids c2)).zip
      ((unique_chunks c2).map Document.page_content)).map Prod.fst = ord2 (unique_ids c2) := by
    refine List.map_fst_zip _ _ ?_
    rw [hord.length_eq, unique_ids_length, List.length_map]
  have hnd : (ord2 (unique_ids c2)).Nodup := hord.symm.nodup (unique_ids_nodup c2)
  refine ⟨setCollection st1 (clean_filename f2)
      (upsertAll (getCollection st1 (clean_filename f2))
        ((ord2 (unique_ids c2)).zip ((unique_chunks c2).map Document.page_content))), ?_, ?_, ?_⟩
  · unfold create_vectorstore chromaFromDocuments
    show Except.bind ((unique_chunks c2).mapM fun d => embed d.page_content) _ = _
    rw [hvs]
    rfl
  · intro pr hpr
    rw [getCollection_setCollection_same]
    exact lookupEntry_upsertAll_mem _ _ (by rw [hkeys]; exact hnd) pr hpr
  · intro en hen hkn
    rw [getCollection_setCollection_same]
    exact mem_upsertAll en _ _ (hclean ▸ hen) (by rw [hkeys]; exact hkn)

/-- C4 counterexample: the files "Invoice (1).pdf" and "Invoice (2).pdf" clean
to the same collection name "Invoice.pdf"; with differing contents ("x" vs
"y"), creating the second vector store returns `ok` — no NameCollision error —
and the shared collection then holds both files' chunks. -/
theorem colliding_names_silently_merge_cex :
    clean_filename "Invoice (1).pdf" = clean_filename "Invoice (2).pdf" ∧
    ∃ stB, create_vectorstore (fun _ => Except.ok [0]) (fun l => l)
        ((create_vectorstore (fun _ => Except.ok [0]) (fun l => l) []
            [⟨"x"⟩] "Invoice (1).pdf").toOption.getD [])
        [⟨"y"⟩] "Invoice (2).pdf" = Except.ok stB ∧
      lookupEntry (getCollection stB "Invoice.pdf") (uuid5DNS "x") = some "x" ∧
      lookupEntry (getCollection stB "Invoice.pdf") (uuid5DNS "y") = some "y" := by
  refine ⟨by decide, ⟨_, rfl, by decide, by decide⟩⟩

/-- Witness for C4 (amended) on the concrete collision scenario of the spec. -/
theorem second_file_upserts_into_existing_collection_witness :
    (clean_filename "Invoice (1).pdf" = clean_filename "Invoice (2).pdf" ∧
      (∀ d ∈ unique_chunks [⟨"y"⟩], ∃ v,
        (fun (_ : String) => Except.ok (ε := PyErr) [(0 : Int)]) d.page_content =
          Except.ok v) ∧
      ((fun (l : List String) => l) (unique_ids [⟨"y"⟩])).Perm (unique_ids [⟨"y"⟩])) ∧
    (∃ st2, create_vectorstore (fun _ => Except.ok [0]) (fun l => l)
        [("Invoice.pdf", [(uuid5DNS "x", "x")])] [⟨"y"⟩] "Invoice (2).pdf" =
          Except.ok st2 ∧
      (∀ pr ∈ ((fun (l : List String) => l) (unique_ids [⟨"y"⟩])).zip
          ((unique_chunks [⟨"y"⟩]).map Document.page_content),
        lookupEntry (getCollection st2 (clean_filename "Invoice (2).pdf")) pr.1 =
          some pr.2) ∧
      (∀ en ∈ getCollection [("Invoice.pdf", [(uuid5DNS "x", "x")])]
          (clean_filename "Invoice (1).pdf"),
        en.1 ∉ (fun (l : List String) => l) (unique_ids [⟨"y"⟩]) →
        en ∈ getCollection st2 (clean_filename "Invoice (2).pdf"))) := by
  have hclean : clean_filename "Invoice (1).pdf" = clean_filename "Invoice (2).pdf" := by
    decide
  have hembed : ∀ d ∈ unique_chunks [⟨"y"⟩], ∃ v,
      (fun (_ : String) => Except.ok (ε := PyErr) [(0 : Int)]) d.page_content =
        Except.ok v := fun d _ => ⟨[0], rfl⟩
  have hord : ((fun (l : List String) => l) (unique_ids [⟨"y"⟩])).Perm
      (unique_ids [⟨"y"⟩]) := List.Perm.refl _
  exact ⟨⟨hclean, hembed, hord⟩,
    second_file_upserts_into_existing_collection (fun _ => Except.ok [0]) (fun l => l)
      [("Invoice.pdf", [(uuid5DNS "x", "x")])] "Invoice (1).pdf" "Invoice (2).pdf"
      [⟨"y"⟩] hclean hembed hord⟩

theorem splitOnFuel_single (a : Char) :
    ∀ (fuel : Nat) (text : List Char), text.length ≤ fuel →
      ∀ p ∈ splitOnFuel [a] fuel text, a ∉ p := by
  intro fuel
  induction fuel with
  | zero =>
    intro text hlen p hp
    have : text = [] := List.eq_nil_of_length_eq_zero (Nat.le_zero.mp hlen)
    subst this
    simp only [splitOnFuel] at hp
    simp only [List.mem_singleton] at hp
    subst hp
    exact List.not_mem_nil a
  | succ fuel ih =>
    intro text hlen p hp
    cases text with
    | nil =>
      simp only [splitOnFuel, List.mem_singleton] at hp
      subst hp
      exact List.not_mem_nil a
    | cons c cs =>
      simp only [splitOnFuel] at hp
      by_cases hpre : [a].isPrefixOf (c :: cs)
      · rw [if_pos ⟨by simp, hpre⟩] at hp
        rcases List.mem_cons.mp hp with rfl | hp2
        · exact List.not_mem_nil a
        · have : ((c :: cs).drop 1).length ≤ fuel := by
            simpa using Nat.le_of_succ_le_succ hlen
          exact ih _ this p hp2
      · have hca : ¬ c = a := by
          intro h
          exact hpre (by simp [List.isPrefixOf, h])
        rw [if_neg (fun hand => hpre hand.2)] at hp
        cases hrec : splitOnFuel [a] fuel cs with
        | nil =>
          rw [hrec] at hp
          simp only [List.mem_singleton] at hp
          subst hp
          simpa using fun h => hca h.symm
        | cons q qs =>
          rw [hrec] at hp
          have hlen' : cs.length ≤ fuel := Nat.le_of_succ_le_succ hlen
          rcases List.mem_cons.mp hp with rfl | hp2
          · intro hmem
            rcases List.mem_cons.mp hmem with h | h
            · exact hca h.symm
            · exact ih cs hlen' q (hrec ▸ List.mem_cons_self q qs) h
          · exact ih cs hlen' p (hrec ▸ List.mem_cons_of_mem q hp2)

theorem splitKeep_space (text : List Char) :
    ∀ s ∈ splitKeep [' '] text, ' ' ∉ s.drop 1 := by
  intro s hs
  unfold splitKeep at hs
  cases hsplit : splitOnL [' '] text with
  | nil => rw [hsplit] at hs; cases hs
  | cons p ps =>
    rw [hsplit] at hs
    have hall : ∀ q ∈ splitOnL [' '] text, ' ' ∉ q :=
      splitOnFuel_single ' ' text.length text (Nat.le_refl _)
    have hsf := List.mem_filter.mp hs
    rcases List.mem_cons.mp hsf.1 with rfl | hs2
    · exact fun hmem =>
        hall s (hsplit ▸ List.mem_cons_self s ps) (List.mem_of_mem_drop hmem)
    · rcases List.mem_map.mp hs2 with ⟨q, hq, rfl⟩
      have : ([' '] ++ q).drop 1 = q := rfl
      rw [this]
      exact hall q (hsplit ▸ List.mem_cons_of_mem p hq)

theorem joinSep_nil_length : ∀ l : List (List Char), (joinSep [] l).length = sumLens l
  | [] => rfl
  | [d] => by simp [joinSep, sumLens]
  | d :: d2 :: ds => by
    have := joinSep_nil_length (d2 :: ds)
    simp only [joinSep, sumLens, List.length_append, List.map_cons, List.sum_cons,
      List.length_nil] at this ⊢
    omega

theorem dropWhile_len_le (p : Char → Bool) :
    ∀ l : List Char, (l.dropWhile p).length ≤ l.length := by
  intro l
  induction l with
  | nil => simp
  | cons a t ih =>
    rw [List.dropWhile_cons]
    by_cases h : p a
    · simp only [h, if_true]
      exact le_trans ih (Nat.le_succ _)
    · simp [h]

theorem stripWs_length_le (l : List Char) : (stripWs l).length ≤ l.length := by
  unfold stripWs
  have h1 := dropWhile_len_le isPySpace l
  have h2 := dropWhile_len_le isPySpace (l.dropWhile isPySpace).reverse
  simp only [List.length_reverse] at *
  omega

theorem joinDocs_nil_le (cur : List (List Char)) (doc : List Char)
    (h : joinDocs [] cur = some doc) : doc.length ≤ sumLens cur := by
  unfold joinDocs at h
  by_cases hnil : stripWs (joinSep [] cur) = []
  · simp [hnil] at h
  · simp only [if_neg hnil] at h
    cases h
    calc (stripWs (joinSep [] cur)).length
        ≤ (joinSep [] cur).length := stripWs_length_le _
      _ = sumLens cur := joinSep_nil_length cur

theorem popWhile_spec (S O dLen : Nat) :
    ∀ (cur : List (List Char)) (total : Nat), total = sumLens cur →
      (popWhile 0 S O dLen cur total).2 = sumLens (popWhile 0 S O dLen cur total).1 ∧
      ((popWhile 0 S O dLen cur total).2 + dLen ≤ S ∨
        (popWhile 0 S O dLen cur total).2 = 0) := by
  intro cur
  induction cur with
  | nil =>
    intro total h
    simp only [popWhile]
    exact ⟨h.trans (by simp [sumLens]), Or.inr (by simpa [sumLens] using h)⟩
  | cons c0 cur ih =>
    intro total h
    have hsum : total = c0.length + sumLens cur := by
      simpa [sumLens] using h
    simp only [popWhile]
    by_cases hcond : total > O ∨ (total + dLen + 0 > S ∧ total > 0)
    · rw [if_pos hcond]
      simp only [ite_self, Nat.add_zero]
      exact ih _ (by omega)
    · rw [if_neg hcond]
      exact ⟨h, by omega⟩

theorem mergeAux_nil_le (S O : Nat) :
    ∀ (splits cur : List (List Char)) (total : Nat),
      (∀ d ∈ splits, d.length < S) → total = sumLens cur → total ≤ S →
      ∀ c ∈ mergeAux [] S O splits cur total, c.length ≤ S := by
  intro splits
  induction splits with
  | nil =>
    intro cur total _ hsum hle c hc
    simp only [mergeAux] at hc
    cases hj : joinDocs [] cur with
    | none => rw [hj] at hc; cases hc
    | some doc =>
      rw [hj] at hc
      simp only [Option.toList, List.mem_singleton] at hc
      subst hc
      exact le_trans (joinDocs_nil_le cur c hj) (hsum ▸ hle)
  | cons d ds ih =>
    intro cur total hlt hsum hle c hc
    have hdlt : d.length < S := hlt d (List.mem_cons_self d ds)
    have hlt' : ∀ x ∈ ds, x.length < S := fun x hx => hlt x (List.mem_cons_of_mem d hx)
    cases cur with
    | nil =>
      have htot : total = 0 := by simpa [sumLens] using hsum
      simp only [mergeAux] at hc
      exact ih [d] (total + d.length) hlt' (by simp [sumLens, htot]) (by omega) c hc
    | cons c0 cs =>
      simp only [mergeAux, List.length_nil] at hc
      by_cases hcond : total + d.length + 0 > S
      · rw [if_pos hcond] at hc
        rcases List.mem_append.mp hc with hc1 | hc2
        · cases hj : joinDocs [] (c0 :: cs) with
          | none => rw [hj] at hc1; cases hc1
          | some doc =>
            rw [hj] at hc1
            simp only [Option.toList, List.mem_singleton] at hc1
            subst hc1
            exact le_trans (joinDocs_nil_le _ c hj) (hsum ▸ hle)
        · rw [ite_self] at hc2
          obtain ⟨hp2, hp3⟩ := popWhile_spec S O d.length (c0 :: cs) total hsum
          refine ih _ _ hlt' (by simp [sumLens, hp2, Nat.add_comm]) ?_ c hc2
          rcases hp3 with h3 | h3
          · omega
          · omega
      · rw [if_neg hcond, ite_self] at hc
        refine ih _ _ hlt' (by simp [sumLens, hsum]; omega) (by omega) c hc

theorem splitLoop_mem (S O : Nat) (hb : List Char → List (List Char)) :
    ∀ (splits good : List (List Char)), (∀ g ∈ good, g.length < S) →
      ∀ c ∈ splitLoop S O hb good splits,
        (∃ run, (∀ g ∈ run, g.length < S) ∧ c ∈ mergeSplits [] S O run) ∨
        (∃ s ∈ splits, c ∈ hb s) := by
  intro splits
  induction splits with
  | nil =>
    intro good hgood c hc
    simp only [splitLoop] at hc
    by_cases h : good = []
    · rw [if_pos h] at hc; cases hc
    · rw [if_neg h] at hc
      exact Or.inl ⟨good, hgood, hc⟩
  | cons s rest ih =>
    intro good hgood c hc
    simp only [splitLoop] at hc
    by_cases hs : s.length < S
    · rw [if_pos hs] at hc
      have hgood' : ∀ g ∈ good ++ [s], g.length < S := by
        intro g hg
        rcases List.mem_append.mp hg with h1 | h1
        · exact hgood g h1
        · rw [List.mem_singleton.mp h1]; exact hs
      rcases ih (good ++ [s]) hgood' c hc with h | ⟨s', hs', hc'⟩
      · exact Or.inl h
      · exact Or.inr ⟨s', List.mem_cons_of_mem s hs', hc'⟩
    · rw [if_neg hs] at hc
      rcases List.mem_append.mp hc with hc1 | hc2
      · rcases List.mem_append.mp hc1 with hc0 | hcb
        · by_cases h : good = []
          · rw [if_pos h] at hc0; cases hc0
          · rw [if_neg h] at hc0
            exact Or.inl ⟨good, hgood, hc0⟩
        · exact Or.inr ⟨s, List.mem_cons_self s rest, hcb⟩
      · rcases ih [] (by simp) c hc2 with h | ⟨s', hs', hc'⟩
        · exact Or.inl h
        · exact Or.inr ⟨s', List.mem_cons_of_mem s hs', hc'⟩

theorem splitTextSpace_prop (S O : Nat) (text : List Char) :
    ∀ c ∈ splitTextSpace S O text, c.length ≤ S ∨ ' ' ∉ c.drop 1 := by
  intro c hc
  rcases splitLoop_mem S O (fun s => [s]) (splitKeep [' '] text) [] (by simp) c hc with
    ⟨run, hrun, hcm⟩ | ⟨s, hs, hcs⟩
  · exact Or.inl (mergeAux_nil_le S O run [] 0 hrun (by simp [sumLens]) (by simp) c hcm)
  · have : c = s := List.mem_singleton.mp hcs
    subst this
    exact Or.inr (splitKeep_space text c hs)

theorem splitTextNl_prop (S O : Nat) (text : List Char) :
    ∀ c ∈ splitTextNl S O text, c.length ≤ S ∨ ' ' ∉ c.drop 1 := by
  intro c hc
  unfold splitTextNl at hc
  by_cases h : occursIn ['\n'] text
  · rw [if_pos h] at hc
    rcases splitLoop_mem S O (splitTextSpace S O) (splitKeep ['\n'] text) [] (by simp) c hc
      with ⟨run, hrun, hcm⟩ | ⟨s, _, hcs⟩
    · exact Or.inl (mergeAux_nil_le S O run [] 0 hrun (by simp [sumLens]) (by simp) c hcm)
    · exact splitTextSpace_prop S O s c hcs
  · rw [if_neg h] at hc
    exact splitTextSpace_prop S O text c hc

theorem splitTextFull_prop (S O : Nat) (text : List Char) :
    ∀ c ∈ splitTextFull S O text, c.length ≤ S ∨ ' ' ∉ c.drop 1 := by
  intro c hc
  unfold splitTextFull at hc
  by_cases h : occursIn ['\n', '\n'] text
  · rw [if_pos h] at hc
    rcases splitLoop_mem S O (splitTextNl S O) (splitKeep ['\n', '\n'] text) [] (by simp) c hc
      with ⟨run, hrun, hcm⟩ | ⟨s, _, hcs⟩
    · exact Or.inl (mergeAux_nil_le S O run [] 0 hrun (by simp [sumLens]) (by simp) c hcm)
    · exact splitTextNl_prop S O s c hcs
  · rw [if_neg h] at hc
    exact splitTextNl_prop S O text c hc

/-- C3 (amended): every chunk produced by `split_document` either has length
at most the configured maximum, or contains no space after its first
character — an unbreakable token (possibly carrying the separator reattached
at its front by `keep_separator`) that the splitter emits whole, because the
configured separator list `["\n\n", "\n", " "]` contains no empty string and
therefore no hard character-level cut exists.  (The claim's `length ≤ S`
bound and its `overlap = O exactly` clause both fail on the code; see the
counterexample.) -/
theorem split_chunks_bounded_or_unbreakable (documents : List Document)
    (chunk_size chunk_overlap : Nat) (chunk : Document)
    (hmem : chunk ∈ split_document documents chunk_size chunk_overlap) :
    chunk.page_content.length ≤ chunk_size ∨ ' ' ∉ chunk.page_content.data.drop 1 := by
  unfold split_document at hmem
  rcases List.mem_flatten.mp hmem with ⟨l, hl, hcl⟩
  rcases List.mem_map.mp hl with ⟨d, _, rfl⟩
  rcases List.mem_map.mp hcl with ⟨s, hs, rfl⟩
  unfold split_text at hs
  rcases List.mem_map.mp hs with ⟨cl, hcl2, rfl⟩
  have hprop := splitTextFull_prop chunk_size chunk_overlap d.page_content.data cl hcl2
  simpa [Document.mk, String.length] using hprop

/-- Witness for C3 (amended) at a concrete one-page document. -/
theorem split_chunks_bounded_or_unbreakable_witness :
    (⟨"ab"⟩ : Document) ∈ split_document [⟨"ab"⟩] 4 1 ∧
    ((⟨"ab"⟩ : Document).page_content.length ≤ 4 ∨
      ' ' ∉ (⟨"ab"⟩ : Document).page_content.data.drop 1) := by
  have hmem : (⟨"ab"⟩ : Document) ∈ split_document [⟨"ab"⟩] 4 1 := by decide
  exact ⟨hmem, split_chunks_bounded_or_unbreakable [⟨"ab"⟩] 4 1 ⟨"ab"⟩ hmem⟩

/-- C3 counterexample: with maximum size 4 and overlap 1 (overlap < size), the
one-page document "abcdef" — which contains none of the configured separators —
yields a single chunk of length 6 > 4 (no hard character cut happens); and with
size 8 and overlap 4, the page "aaa bbb ccc" yields the consecutive chunks
"aaa bbb" and "bbb ccc", whose overlap is 3, not 4, with no page boundary
involved. -/
theorem split_chunk_size_and_overlap_cex :
    ((1 : Nat) < 4 ∧ split_document [⟨"abcdef"⟩] 4 1 = [⟨"abcdef"⟩] ∧
      (⟨"abcdef"⟩ : Document).page_content.length = 6) ∧
    ((4 : Nat) < 8 ∧ split_document [⟨"aaa bbb ccc"⟩] 8 4 = [⟨"aaa bbb"⟩, ⟨"bbb ccc"⟩] ∧
      overlapLen "aaa bbb".data "bbb ccc".data = 3 ∧ (3 : Nat) ≠ 4) := by
  decide

end InvoiceApp
